import Mathlib

/-!
Verification development for the `cobs_crc32` trailer solver
(repository file `src/cobs_crc32.rs`).

The solver takes the running CRC32 accumulator of a COBS-framed stream and
searches for a two-byte trailer `[6, b1]` whose CRC32 continuation has no byte
lane equal to `0x00` or `0xFF`.  The CRC32 primitive itself lives in the
external `crc32fast` crate; it is modelled here as the standard reflected
CRC-32 (polynomial `0xEDB88320`, init and final xor `0xFFFFFFFF`), the exact
function `crc32fast` computes.  All machine integers are modelled as `Nat`;
no arithmetic in the algorithm can overflow 32 bits when the inputs are
32-bit values, so no masking is required.
-/

/-- One round of the bitwise reflected CRC-32 division step:
shift right by one and conditionally xor the reversed polynomial. -/
def crcRound (s : Nat) : Nat :=
  if s &&& 1 = 1 then (s >>> 1) ^^^ 0xEDB88320 else s >>> 1

/-- Modelled from the spec: the external `crc32fast` crate's per-byte update of
the raw (pre-final-xor) CRC-32 register: xor the byte in, then run eight
division rounds. -/
def rawStep (s b : Nat) : Nat := crcRound^[8] (s ^^^ b)

/-- Raw CRC-32 register after absorbing a list of bytes. -/
def crcUpdate (s : Nat) (bytes : List Nat) : Nat := bytes.foldl rawStep s

/-- Modelled from the spec: the external `crc32fast` continuation primitive
(`Hasher::new_with_initial(crc)` followed by `update(bytes)` and `finalize()`),
i.e. CRC-32 continued from a previously finalized accumulator value. -/
def crcCont (crc : Nat) (bytes : List Nat) : Nat :=
  crcUpdate (crc ^^^ 0xFFFFFFFF) bytes ^^^ 0xFFFFFFFF

/-- Modelled from the spec: CRC-32 of a whole message
(`Hasher::new()`, `update`, `finalize` in `crc32fast`). -/
def crc32 (bytes : List Nat) : Nat := crcCont 0 bytes

/-- The rejection test of `cobs_crc32` (source lines 26–33), verbatim: the
candidate CRC is bad when any of its four byte lanes is all-zero or all-one,
written with the same eight masked comparisons as the Rust code. -/
def laneBad (c : Nat) : Bool :=
  (c &&& 0xFF000000 == 0x00000000) ||
  (c &&& 0x00FF0000 == 0x00000000) ||
  (c &&& 0x0000FF00 == 0x00000000) ||
  (c &&& 0x000000FF == 0x00000000) ||
  (c &&& 0xFF000000 == 0xFF000000) ||
  (c &&& 0x00FF0000 == 0x00FF0000) ||
  (c &&& 0x0000FF00 == 0x0000FF00) ||
  (c &&& 0x000000FF == 0x000000FF)

/-- The candidate loop of `cobs_crc32` (source lines 21–44).  The two mutable
locals `new_bytes[1]` and `new_crc32` are threaded explicitly: each iteration
sets `b1` to the candidate and recomputes the continued CRC; a bad candidate
`continue`s with those values kept, a good one `break`s.  When the candidate
list is exhausted the last values are returned (the loop has no error path). -/
def cobsSearch (a : Nat) : List Nat → Nat → Nat → Nat × Nat
  | [], b1, c => (b1, c)
  | k :: rest, _, _ =>
    let c := crcCont a [6, k]
    if laneBad c then cobsSearch a rest k c else (k, c)

/-- The solver `cobs_crc32` (source lines 12–47): `new_bytes = [6, 0]`,
`new_crc32 = 0`, then the loop over candidates `1..=255`, returning
`(new_bytes, new_crc32)`.  The trailer `[u8; 2]` is modelled as a pair whose
first component is the fixed byte `6`. -/
def cobs_crc32 (a : Nat) : (Nat × Nat) × Nat :=
  let r := cobsSearch a (List.range' 1 255) 0 0
  ((6, r.1), r.2)

/-- Number of executions of the loop body of `cobs_crc32` on a candidate
list: one per candidate tried, stopping at the first good one. -/
def cobsSearchSteps (a : Nat) : List Nat → Nat
  | [] => 0
  | k :: rest =>
    if laneBad (crcCont a [6, k]) then 1 + cobsSearchSteps a rest else 1

/-- Number of executions of the loop body of `cobs_crc32` on its actual
candidate range `1..=255`. -/
def cobsIterations (a : Nat) : Nat := cobsSearchSteps a (List.range' 1 255)

/-- Byte lane `j` of a 32-bit word, as the spec describes it (`j = 0` is the
least significant lane).  This is the spec-side notion used to state the
sentinel-exclusion claims; the source expresses the same tests through the
masked comparisons of `laneBad`. -/
def byteLane (c j : Nat) : Nat := (c >>> (8 * j)) &&& 0xFF

/-- Spec-side sentinel exclusion for a CRC word: every one of the four byte
lanes differs from `0x00` and `0xFF`. -/
def specLaneOk (c : Nat) : Prop := ∀ j < 4, byteLane c j ≠ 0x00 ∧ byteLane c j ≠ 0xFF

/-- The mask the source uses to test byte lane `j`. -/
def laneMask (j : Nat) : Nat := 0xFF <<< (8 * j)

/-- The xor-difference of the one-byte CRC table entries for candidate `k`
and for candidate `1`; by linearity of the CRC rounds, replacing the final
searched byte `1` by `k` xors exactly this constant into the continued CRC. -/
def candDelta (k : Nat) : Nat := crcRound^[8] 1 ^^^ crcRound^[8] k

lemma xor_shiftRight (x y n : Nat) : (x ^^^ y) >>> n = (x >>> n) ^^^ (y >>> n) := by
  apply Nat.eq_of_testBit_eq
  intro i
  simp [Nat.testBit_shiftRight, Nat.testBit_xor]

lemma xor_cancel_middle (p q r : Nat) : (p ^^^ q) ^^^ (p ^^^ r) = q ^^^ r := by
  apply Nat.eq_of_testBit_eq
  intro i
  simp [Nat.testBit_xor]
  cases p.testBit i <;> cases q.testBit i <;> cases r.testBit i <;> rfl

lemma xor_swap_right (u v p : Nat) : (u ^^^ v) ^^^ p = (u ^^^ p) ^^^ v := by
  rw [Nat.xor_assoc, Nat.xor_comm v p, ← Nat.xor_assoc]

lemma xor_cancel_pair (u v p : Nat) : (u ^^^ p) ^^^ (v ^^^ p) = u ^^^ v := by
  apply Nat.eq_of_testBit_eq
  intro i
  simp only [Nat.testBit_xor]
  cases hu : u.testBit i <;> cases hv : v.testBit i <;> cases hp : p.testBit i <;> rfl

lemma xor_delta (A T1 Tk F : Nat) :
    (A ^^^ Tk) ^^^ F = ((A ^^^ T1) ^^^ F) ^^^ (T1 ^^^ Tk) := by
  apply Nat.eq_of_testBit_eq
  intro i
  simp only [Nat.testBit_xor]
  cases hA : A.testBit i <;> cases h1 : T1.testBit i <;> cases hk : Tk.testBit i <;>
    cases hF : F.testBit i <;> rfl

lemma crcRound_xor (x y : Nat) : crcRound (x ^^^ y) = crcRound x ^^^ crcRound y := by
  have hxy : (x ^^^ y) &&& 1 = (x &&& 1) ^^^ (y &&& 1) := Nat.and_xor_distrib_right
  have hx := Nat.and_one_is_mod x
  have hy := Nat.and_one_is_mod y
  unfold crcRound
  rcases Nat.mod_two_eq_zero_or_one x with h1 | h1 <;>
    rcases Nat.mod_two_eq_zero_or_one y with h2 | h2
  · rw [if_neg (by simp [hxy, hx, hy, h1, h2]), if_neg (by simp [hx, h1]),
      if_neg (by simp [hy, h2]), xor_shiftRight]
  · rw [if_pos (by simp [hxy, hx, hy, h1, h2]), if_neg (by simp [hx, h1]),
      if_pos (by simp [hy, h2]), xor_shiftRight, Nat.xor_assoc]
  · rw [if_pos (by simp [hxy, hx, hy, h1, h2]), if_pos (by simp [hx, h1]),
      if_neg (by simp [hy, h2]), xor_shiftRight, xor_swap_right]
  · rw [if_neg (by simp [hxy, hx, hy, h1, h2]), if_pos (by simp [hx, h1]),
      if_pos (by simp [hy, h2]), xor_shiftRight]
    exact (xor_cancel_pair _ _ _).symm

lemma crcRoundIter_xor : ∀ (n x y : Nat),
    crcRound^[n] (x ^^^ y) = crcRound^[n] x ^^^ crcRound^[n] y := by
  intro n
  induction n with
  | zero => intro x y; simp
  | succ m ih =>
    intro x y
    simp only [Function.iterate_succ_apply]
    rw [crcRound_xor, ih]

lemma crcCont_pair (a k : Nat) :
    crcCont a [6, k] = crcCont a [6, 1] ^^^ candDelta k := by
  have expand : ∀ m : Nat, crcCont a [6, m] =
      (crcRound^[8] (crcRound^[8] (a ^^^ 0xFFFFFFFF ^^^ 6)) ^^^ crcRound^[8] m) ^^^
        0xFFFFFFFF := by
    intro m
    simp only [crcCont, crcUpdate, List.foldl, rawStep]
    rw [crcRoundIter_xor]
  rw [expand k, expand 1, candDelta]
  exact xor_delta _ _ _ _

lemma laneBad_exists_kill {c : Nat} (h : laneBad c = true) :
    ∃ j, j < 4 ∧ (c &&& laneMask j = 0 ∨ c &&& laneMask j = laneMask j) := by
  have m0 : laneMask 0 = 0x000000FF := by decide
  have m1 : laneMask 1 = 0x0000FF00 := by decide
  have m2 : laneMask 2 = 0x00FF0000 := by decide
  have m3 : laneMask 3 = 0xFF000000 := by decide
  simp only [laneBad, Bool.or_eq_true, beq_iff_eq] at h
  rcases h with ((((((h | h) | h) | h) | h) | h) | h) | h
  · exact ⟨3, by omega, Or.inl (by rw [m3]; exact h)⟩
  · exact ⟨2, by omega, Or.inl (by rw [m2]; exact h)⟩
  · exact ⟨1, by omega, Or.inl (by rw [m1]; exact h)⟩
  · exact ⟨0, by omega, Or.inl (by rw [m0]; exact h)⟩
  · exact ⟨3, by omega, Or.inr (by rw [m3]; exact h)⟩
  · exact ⟨2, by omega, Or.inr (by rw [m2]; exact h)⟩
  · exact ⟨1, by omega, Or.inr (by rw [m1]; exact h)⟩
  · exact ⟨0, by omega, Or.inr (by rw [m0]; exact h)⟩

lemma tablePairs : ∀ i1 i2 : Fin 5, i1 ≠ i2 → ∀ j : Fin 4,
    (crcRound^[8] (i1.val + 1) ^^^ crcRound^[8] (i2.val + 1)) &&& laneMask j.val ≠ 0 ∧
    (crcRound^[8] (i1.val + 1) ^^^ crcRound^[8] (i2.val + 1)) &&& laneMask j.val ≠
      laneMask j.val := by decide

lemma exists_good_shift (x : Nat) :
    ∃ k, 1 ≤ k ∧ k ≤ 5 ∧ laneBad (x ^^^ candDelta k) = false := by
  by_contra hcon
  push_neg at hcon
  have hbad : ∀ i : Fin 5, laneBad (x ^^^ candDelta (i.val + 1)) = true := by
    intro i
    have hne := hcon (i.val + 1) (by omega) (by omega)
    cases hb : laneBad (x ^^^ candDelta (i.val + 1)) with
    | false => exact absurd hb hne
    | true => rfl
  have hkill : ∀ i : Fin 5, ∃ j : Fin 4,
      (x &&& laneMask j.val) ^^^ (candDelta (i.val + 1) &&& laneMask j.val) = 0 ∨
      (x &&& laneMask j.val) ^^^ (candDelta (i.val + 1) &&& laneMask j.val) =
        laneMask j.val := by
    intro i
    obtain ⟨j, hj4, hP⟩ := laneBad_exists_kill (hbad i)
    rw [Nat.and_xor_distrib_right] at hP
    exact ⟨⟨j, hj4⟩, hP⟩
  choose f hf using hkill
  obtain ⟨i1, i2, hne, heq⟩ := Fintype.exists_ne_map_eq_of_card_lt f (by simp)
  have h2 := hf i2
  rw [← heq] at h2
  have key : (candDelta (i1.val + 1) ^^^ candDelta (i2.val + 1)) &&& laneMask (f i1).val = 0 ∨
      (candDelta (i1.val + 1) ^^^ candDelta (i2.val + 1)) &&& laneMask (f i1).val =
        laneMask (f i1).val := by
    rw [Nat.and_xor_distrib_right]
    have hv : (candDelta (i1.val + 1) &&& laneMask (f i1).val) ^^^
        (candDelta (i2.val + 1) &&& laneMask (f i1).val) =
        ((x &&& laneMask (f i1).val) ^^^ (candDelta (i1.val + 1) &&& laneMask (f i1).val)) ^^^
        ((x &&& laneMask (f i1).val) ^^^ (candDelta (i2.val + 1) &&& laneMask (f i1).val)) :=
      (xor_cancel_middle _ _ _).symm
    rcases hf i1 with ha | ha <;> rcases h2 with hb | hb
    · left; rw [hv, ha, hb]; exact Nat.xor_zero 0
    · right; rw [hv, ha, hb]; exact Nat.zero_xor _
    · right; rw [hv, ha, hb]; exact Nat.xor_zero _
    · left; rw [hv, ha, hb]; exact Nat.xor_self _
  have hdelta : candDelta (i1.val + 1) ^^^ candDelta (i2.val + 1) =
      crcRound^[8] (i1.val + 1) ^^^ crcRound^[8] (i2.val + 1) := by
    simp only [candDelta]
    exact xor_cancel_middle _ _ _
  rw [hdelta] at key
  obtain ⟨hne0, hneM⟩ := tablePairs i1 i2 hne (f i1)
  rcases key with k0 | kM
  · exact hne0 k0
  · exact hneM kM

lemma exists_good (a : Nat) :
    ∃ k, 1 ≤ k ∧ k ≤ 5 ∧ laneBad (crcCont a [6, k]) = false := by
  obtain ⟨k, h1, h5, hgood⟩ := exists_good_shift (crcCont a [6, 1])
  exact ⟨k, h1, h5, by rwa [crcCont_pair a k]⟩

lemma cobsSearch_find (a : Nat) : ∀ (l : List Nat) (b c k0 : Nat),
    l.find? (fun k => !laneBad (crcCont a [6, k])) = some k0 →
    cobsSearch a l b c = (k0, crcCont a [6, k0]) := by
  intro l
  induction l with
  | nil => intro b c k0 h; simp at h
  | cons k rest ih =>
    intro b c k0 h
    cases hb : laneBad (crcCont a [6, k]) with
    | true =>
      rw [List.find?_cons_of_neg _ (by simp [hb])] at h
      simp only [cobsSearch]
      rw [if_pos hb]
      exact ih _ _ _ h
    | false =>
      rw [List.find?_cons_of_pos _ (by simp [hb])] at h
      obtain rfl : k = k0 := Option.some.inj h
      simp only [cobsSearch]
      rw [if_neg (by simp [hb])]

lemma find?_range'_first (p : Nat → Bool) :
    ∀ (n s : Nat), (∃ j, j < n ∧ p (s + j) = true) →
    ∃ k0, List.find? p (List.range' s n) = some k0 ∧ p k0 = true ∧
      s ≤ k0 ∧ (∀ m, s ≤ m → m < k0 → p m = false) ∧
      (∀ j, j < n → p (s + j) = true → k0 ≤ s + j) := by
  intro n
  induction n with
  | zero => rintro s ⟨j, hj, -⟩; omega
  | succ m ih =>
    intro s hex
    cases hs : p s with
    | true =>
      refine ⟨s, ?_, hs, Nat.le_refl s, ?_, ?_⟩
      · rw [List.range'_succ]; exact List.find?_cons_of_pos _ hs
      · intro m2 hm1 hm2; omega
      · intro j _ _; omega
    | false =>
      obtain ⟨j, hj, hpj⟩ := hex
      have hj0 : j ≠ 0 := by
        intro h0
        rw [h0, Nat.add_zero] at hpj
        rw [hs] at hpj
        exact Bool.false_ne_true hpj
      obtain ⟨j', rfl⟩ : ∃ j', j = j' + 1 := ⟨j - 1, by omega⟩
      have hex2 : ∃ j2, j2 < m ∧ p (s + 1 + j2) = true :=
        ⟨j', by omega, by rw [show s + 1 + j' = s + (j' + 1) by omega]; exact hpj⟩
      obtain ⟨k0, hfind, hpk, hle, hmin, hub⟩ := ih (s + 1) hex2
      refine ⟨k0, ?_, hpk, by omega, ?_, ?_⟩
      · rw [List.range'_succ, List.find?_cons_of_neg _ (by simp [hs])]
        exact hfind
      · intro m2 hm1 hm2
        rcases Nat.eq_or_lt_of_le hm1 with hsm | hgt
        · rw [← hsm]; exact hs
        · exact hmin m2 (by omega) hm2
      · intro j2 hj2 hpj2
        rcases Nat.eq_zero_or_pos j2 with rfl | hpos
        · rw [Nat.add_zero] at hpj2
          rw [hs] at hpj2
          exact absurd hpj2 Bool.false_ne_true
        · have := hub (j2 - 1) (by omega)
            (by rw [show s + 1 + (j2 - 1) = s + j2 by omega]; exact hpj2)
          omega

lemma cobs_crc32_spec (a : Nat) :
    ∃ k0, cobs_crc32 a = ((6, k0), crcCont a [6, k0]) ∧
      1 ≤ k0 ∧ k0 ≤ 5 ∧ laneBad (crcCont a [6, k0]) = false ∧
      ∀ m, 1 ≤ m → m < k0 → laneBad (crcCont a [6, m]) = true := by
  obtain ⟨k, hk1, hk5, hkgood⟩ := exists_good a
  have hex : ∃ j, j < 255 ∧ (fun k2 => !laneBad (crcCont a [6, k2])) (1 + j) = true :=
    ⟨k - 1, by omega, by rw [show 1 + (k - 1) = k by omega]; simp [hkgood]⟩
  obtain ⟨k0, hfind, hpk, hge1, hmin, hub⟩ :=
    find?_range'_first (fun k2 => !laneBad (crcCont a [6, k2])) 255 1 hex
  have hsearch := cobsSearch_find a (List.range' 1 255) 0 0 k0 hfind
  have hk0le : k0 ≤ 5 := by
    have := hub (k - 1) (by omega)
      (by rw [show 1 + (k - 1) = k by omega]; simp [hkgood])
    omega
  refine ⟨k0, ?_, hge1, hk0le, ?_, ?_⟩
  · simp only [cobs_crc32]
    rw [hsearch]
  · simpa using hpk
  · intro m hm1 hm2
    simpa using hmin m hm1 hm2

lemma and_ff_shl (c n : Nat) : c &&& (0xFF <<< n) = ((c >>> n) &&& 0xFF) <<< n := by
  apply Nat.eq_of_testBit_eq
  intro i
  simp only [Nat.testBit_and, Nat.testBit_shiftLeft, Nat.testBit_shiftRight]
  by_cases h : n ≤ i
  · simp [ge_iff_le, h, Nat.add_sub_cancel' h, Bool.and_comm, Bool.and_assoc, Bool.and_left_comm]
  · simp [ge_iff_le, h]

lemma and_mask_eq_zero_iff (c n : Nat) :
    c &&& (0xFF <<< n) = 0 ↔ (c >>> n) &&& 0xFF = 0 := by
  rw [and_ff_shl, Nat.shiftLeft_eq]
  constructor
  · intro h
    rcases Nat.mul_eq_zero.mp h with h0 | h0
    · exact h0
    · have := Nat.two_pow_pos n
      omega
  · intro h
    rw [h, Nat.zero_mul]

lemma and_mask_eq_mask_iff (c n : Nat) :
    c &&& (0xFF <<< n) = 0xFF <<< n ↔ (c >>> n) &&& 0xFF = 0xFF := by
  rw [and_ff_shl, Nat.shiftLeft_eq, Nat.shiftLeft_eq]
  constructor
  · intro h
    exact Nat.eq_of_mul_eq_mul_right (Nat.two_pow_pos n) h
  · intro h
    rw [h]

lemma lane_ok_of_masks (c n : Nat) (hz : c &&& (0xFF <<< n) ≠ 0)
    (hf : c &&& (0xFF <<< n) ≠ 0xFF <<< n) :
    (c >>> n) &&& 0xFF ≠ 0 ∧ (c >>> n) &&& 0xFF ≠ 0xFF :=
  ⟨fun h => hz ((and_mask_eq_zero_iff c n).mpr h),
   fun h => hf ((and_mask_eq_mask_iff c n).mpr h)⟩

lemma masks_of_lane_ok (c n : Nat) (hz : (c >>> n) &&& 0xFF ≠ 0)
    (hf : (c >>> n) &&& 0xFF ≠ 0xFF) :
    c &&& (0xFF <<< n) ≠ 0 ∧ c &&& (0xFF <<< n) ≠ 0xFF <<< n :=
  ⟨fun h => hz ((and_mask_eq_zero_iff c n).mp h),
   fun h => hf ((and_mask_eq_mask_iff c n).mp h)⟩

lemma laneBad_iff_spec (c : Nat) : laneBad c = false ↔ specLaneOk c := by
  have s0 : (0xFF : Nat) <<< (8 * 0) = 0x000000FF := by decide
  have s1 : (0xFF : Nat) <<< (8 * 1) = 0x0000FF00 := by decide
  have s2 : (0xFF : Nat) <<< (8 * 2) = 0x00FF0000 := by decide
  have s3 : (0xFF : Nat) <<< (8 * 3) = 0xFF000000 := by decide
  constructor
  · intro h
    obtain ⟨⟨⟨⟨⟨⟨⟨hz3, hz2⟩, hz1⟩, hz0⟩, hf3⟩, hf2⟩, hf1⟩, hf0⟩ :=
      (by simpa only [laneBad, Bool.or_eq_false_iff, beq_eq_false_iff_ne] using h :
        ((((((c &&& 0xFF000000 ≠ 0x00000000 ∧ c &&& 0x00FF0000 ≠ 0x00000000) ∧
          c &&& 0x0000FF00 ≠ 0x00000000) ∧ c &&& 0x000000FF ≠ 0x00000000) ∧
          c &&& 0xFF000000 ≠ 0xFF000000) ∧ c &&& 0x00FF0000 ≠ 0x00FF0000) ∧
          c &&& 0x0000FF00 ≠ 0x0000FF00) ∧ c &&& 0x000000FF ≠ 0x000000FF)
    intro j hj
    interval_cases j
    · exact lane_ok_of_masks c (8 * 0) (by rw [s0]; exact hz0) (by rw [s0]; exact hf0)
    · exact lane_ok_of_masks c (8 * 1) (by rw [s1]; exact hz1) (by rw [s1]; exact hf1)
    · exact lane_ok_of_masks c (8 * 2) (by rw [s2]; exact hz2) (by rw [s2]; exact hf2)
    · exact lane_ok_of_masks c (8 * 3) (by rw [s3]; exact hz3) (by rw [s3]; exact hf3)
  · intro hspec
    have l0 := masks_of_lane_ok c (8 * 0) (hspec 0 (by omega)).1 (hspec 0 (by omega)).2
    have l1 := masks_of_lane_ok c (8 * 1) (hspec 1 (by omega)).1 (hspec 1 (by omega)).2
    have l2 := masks_of_lane_ok c (8 * 2) (hspec 2 (by omega)).1 (hspec 2 (by omega)).2
    have l3 := masks_of_lane_ok c (8 * 3) (hspec 3 (by omega)).1 (hspec 3 (by omega)).2
    rw [s0] at l0
    rw [s1] at l1
    rw [s2] at l2
    rw [s3] at l3
    simp only [laneBad, Bool.or_eq_false_iff, beq_eq_false_iff_ne]
    exact ⟨⟨⟨⟨⟨⟨⟨l3.1, l2.1⟩, l1.1⟩, l0.1⟩, l3.2⟩, l2.2⟩, l1.2⟩, l0.2⟩

lemma cobsSearchSteps_le (a : Nat) : ∀ (m n s : Nat), m ≤ n →
    (∃ j, j < m ∧ laneBad (crcCont a [6, s + j]) = false) →
    cobsSearchSteps a (List.range' s n) ≤ m := by
  intro m
  induction m with
  | zero => rintro n s _ ⟨j, hj, -⟩; omega
  | succ m2 ih =>
    rintro n s hmn ⟨j, hj, hgood⟩
    obtain ⟨n2, rfl⟩ : ∃ n2, n = n2 + 1 := ⟨n - 1, by omega⟩
    rw [List.range'_succ]
    cases hb : laneBad (crcCont a [6, s]) with
    | false =>
      simp only [cobsSearchSteps]
      rw [if_neg (by simp [hb])]
      omega
    | true =>
      simp only [cobsSearchSteps]
      rw [if_pos hb]
      have hj0 : j ≠ 0 := by
        intro h0
        rw [h0, Nat.add_zero] at hgood
        exact Bool.noConfusion (hb.symm.trans hgood)
      have hrec : cobsSearchSteps a (List.range' (s + 1) n2) ≤ m2 :=
        ih n2 (s + 1) (by omega)
          ⟨j - 1, by omega, by rw [show s + 1 + (j - 1) = s + j by omega]; exact hgood⟩
      omega

/-- C2: contrary to the claim, the loop of `cobs_crc32` has no exhaustion
detection: when every candidate in the (arbitrary) candidate list fails the
byte-lane test, the search falls through and returns the last tried candidate
together with its lane-violating CRC continuation — exactly the behaviour the
spec forbids — and signals no error (the return type has no error variant). -/
theorem c2_exhaustion_no_error (a : Nat) : ∀ (l : List Nat) (b c : Nat), l ≠ [] →
    (∀ k ∈ l, laneBad (crcCont a [6, k]) = true) →
    cobsSearch a l b c = (l.getLastD 0, crcCont a [6, l.getLastD 0]) := by
  intro l
  induction l with
  | nil => intro b c hne _; exact absurd rfl hne
  | cons k rest ih =>
    intro b c _ hbad
    simp only [cobsSearch]
    rw [if_pos (hbad k (List.mem_cons_self k rest))]
    cases rest with
    | nil => rfl
    | cons k2 r2 =>
      rw [ih k (crcCont a [6, k]) (by simp)
        (fun k3 hk3 => hbad k3 (List.mem_cons_of_mem k hk3))]
      simp [List.getLastD_cons]

lemma crc32_append (m t : List Nat) : crc32 (m ++ t) = crcCont (crc32 m) t := by
  simp [crc32, crcCont, crcUpdate, List.foldl_append, Nat.xor_cancel_right]

/-- Witness for `c2_exhaustion_no_error`: at accumulator `17` the single
candidate `1` fails the byte-lane test, and the search returns that last tried
candidate and its CRC instead of an error. -/
theorem c2_exhaustion_no_error_witness :
    cobsSearch 17 [1] 0 0 = ([1].getLastD 0, crcCont 17 [6, [1].getLastD 0]) :=
  c2_exhaustion_no_error 17 [1] 0 0 (by decide) (by decide)

/-- C1: for every input accumulator, the two trailer bytes returned by
`cobs_crc32` differ from `0x00` and `0xFF`, and each of the four byte lanes of
the returned CRC lies in `0x01..=0xFE`. -/
theorem c1_sentinel_exclusion (a : Nat) :
    (cobs_crc32 a).1.1 ≠ 0x00 ∧ (cobs_crc32 a).1.1 ≠ 0xFF ∧
    (cobs_crc32 a).1.2 ≠ 0x00 ∧ (cobs_crc32 a).1.2 ≠ 0xFF ∧
    ∀ j < 4, 0x01 ≤ byteLane (cobs_crc32 a).2 j ∧ byteLane (cobs_crc32 a).2 j ≤ 0xFE := by
  obtain ⟨k0, heq, h1, h5, hgood, -⟩ := cobs_crc32_spec a
  rw [heq]
  dsimp only
  refine ⟨?_, ?_, ?_, ?_, ?_⟩
  · show (6 : Nat) ≠ 0x00; omega
  · show (6 : Nat) ≠ 0xFF; omega
  · show k0 ≠ 0x00; omega
  · show k0 ≠ 0xFF; omega
  · intro j hj
    obtain ⟨hnz, hnf⟩ := (laneBad_iff_spec _).mp hgood j hj
    have hle : byteLane (crcCont a [6, k0]) j ≤ 0xFF := Nat.and_le_right
    omega

/-- C3: `cobs_crc32` fixes the first trailer byte at `0x06` and returns, as
second byte, the smallest candidate in `1..=254` whose continued CRC has all
four byte lanes different from `0x00` and `0xFF`, together with exactly that
continued CRC. -/
theorem c3_first_candidate (a : Nat) :
    (cobs_crc32 a).1.1 = 0x06 ∧
    1 ≤ (cobs_crc32 a).1.2 ∧ (cobs_crc32 a).1.2 ≤ 254 ∧
    specLaneOk (crcCont a [6, (cobs_crc32 a).1.2]) ∧
    (∀ m, 1 ≤ m → m ≤ 254 → specLaneOk (crcCont a [6, m]) → (cobs_crc32 a).1.2 ≤ m) ∧
    (cobs_crc32 a).2 = crcCont a [6, (cobs_crc32 a).1.2] := by
  obtain ⟨k0, heq, h1, h5, hgood, hmin⟩ := cobs_crc32_spec a
  rw [heq]
  dsimp only
  refine ⟨rfl, h1, by omega, (laneBad_iff_spec _).mp hgood, ?_, rfl⟩
  intro m hm1 hm2 hok
  by_contra hlt
  push_neg at hlt
  have hbadm := hmin m hm1 hlt
  rw [(laneBad_iff_spec _).mpr hok] at hbadm
  exact Bool.noConfusion hbadm

/-- C4: recomputing the CRC32 of the original message followed by the two
returned trailer bytes reproduces the returned result CRC exactly. -/
theorem c4_continuation_correct (m : List Nat) :
    crc32 (m ++ [(cobs_crc32 (crc32 m)).1.1, (cobs_crc32 (crc32 m)).1.2]) =
      (cobs_crc32 (crc32 m)).2 := by
  obtain ⟨k0, heq, -, -, -, -⟩ := cobs_crc32_spec (crc32 m)
  rw [heq, crc32_append]

/-- C5: for every input accumulator there is a satisfying candidate within the
first five search iterations: some `b1` in `1..=5` makes all four byte lanes
of the continued CRC differ from `0x00` and `0xFF`. -/
theorem c5_candidate_within_five (a : Nat) :
    ∃ b1, 1 ≤ b1 ∧ b1 ≤ 5 ∧ specLaneOk (crcCont a [6, b1]) := by
  obtain ⟨k, h1, h5, hgood⟩ := exists_good a
  exact ⟨k, h1, h5, (laneBad_iff_spec _).mp hgood⟩

/-- C6: `cobs_crc32` is a total function whose loop body executes at most 254
times on every input (in fact at most 5), each execution being one constant
size CRC continuation over the two trailer bytes. -/
theorem c6_bounded_iterations (a : Nat) : cobsIterations a ≤ 254 := by
  obtain ⟨k, h1, h5, hgood⟩ := exists_good a
  have hsteps := cobsSearchSteps_le a 5 255 1 (by omega)
    ⟨k - 1, by omega, by rw [show 1 + (k - 1) = k by omega]; exact hgood⟩
  simp only [cobsIterations]
  exact Nat.le_trans hsteps (by omega)

/-- C7: at the boundary accumulators `0x00000000` and `0xFFFFFFFF` the solver
produces a valid, sentinel-free trailer: both trailer bytes and all four byte
lanes of the returned CRC differ from `0x00` and `0xFF`. -/
theorem c7_boundary :
    ((cobs_crc32 0x00000000).1.1 ≠ 0x00 ∧ (cobs_crc32 0x00000000).1.1 ≠ 0xFF ∧
     (cobs_crc32 0x00000000).1.2 ≠ 0x00 ∧ (cobs_crc32 0x00000000).1.2 ≠ 0xFF ∧
     ∀ j < 4, 0x01 ≤ byteLane (cobs_crc32 0x00000000).2 j ∧
       byteLane (cobs_crc32 0x00000000).2 j ≤ 0xFE) ∧
    ((cobs_crc32 0xFFFFFFFF).1.1 ≠ 0x00 ∧ (cobs_crc32 0xFFFFFFFF).1.1 ≠ 0xFF ∧
     (cobs_crc32 0xFFFFFFFF).1.2 ≠ 0x00 ∧ (cobs_crc32 0xFFFFFFFF).1.2 ≠ 0xFF ∧
     ∀ j < 4, 0x01 ≤ byteLane (cobs_crc32 0xFFFFFFFF).2 j ∧
       byteLane (cobs_crc32 0xFFFFFFFF).2 j ≤ 0xFE) := by
  decide

/-- C8: `cobs_crc32` is a pure deterministic function — any two calls on equal
accumulators return identical trailer bytes and CRC. -/
theorem c8_deterministic (a1 a2 : Nat) (h : a1 = a2) :
    cobs_crc32 a1 = cobs_crc32 a2 := by
  rw [h]

/-- Witness for `c8_deterministic` at the concrete accumulator `42`. -/
theorem c8_deterministic_witness : cobs_crc32 42 = cobs_crc32 42 :=
  c8_deterministic 42 42 rfl

/-- C9: the returned CRC always equals the CRC32 continuation of the input
accumulator over exactly the two returned trailer bytes. -/
theorem c9_consistent_pair (a : Nat) :
    (cobs_crc32 a).2 = crcCont a [(cobs_crc32 a).1.1, (cobs_crc32 a).1.2] := by
  obtain ⟨k0, heq, -, -, -, -⟩ := cobs_crc32_spec a
  rw [heq]

/-- C10: the second trailer byte returned by `cobs_crc32` always lies in
`1..=255`; in particular it is never `0x00`. -/
theorem c10_b1_range (a : Nat) :
    1 ≤ (cobs_crc32 a).1.2 ∧ (cobs_crc32 a).1.2 ≤ 255 ∧ (cobs_crc32 a).1.2 ≠ 0x00 := by
  obtain ⟨k0, heq, h1, h5, -, -⟩ := cobs_crc32_spec a
  rw [heq]
  dsimp only
  exact ⟨h1, by omega, by omega⟩

set_option maxRecDepth 4096 in
/-- Validation of the modelled CRC-32 primitive against the concrete value the
spec and the repository's tests record: the CRC32 of the eleven ASCII bytes of
the test message (Hello world) is `0x8bd69e52`. -/
lemma crc32_test_vector :
    crc32 [72, 101, 108, 108, 111, 32, 119, 111, 114, 108, 100] = 0x8bd69e52 := by
  decide
